import Mathlib

/-!
# Verification of the `fl` Bayesian filtering library core

Shallow embedding of the filtering-relevant source files:

* `src/include/state_filtering/process_model/composed_stationary_process_model.hpp`
  (`ComposedStationaryProcessModel`),
* `src/include/fl/filter/gaussian/robust_gaussian_filter.hpp`
  (`RobustGaussianFilter`),
* the sigma-point quadrature used by the robust filter (its implementation is
  not part of the four source files; it is modelled from the specification).

Real-valued vectors are embedded as `List ℚ` (the algebraic content of the
claims is field arithmetic, so exact rationals stand in for floating point),
matrices for the quadrature section as Mathlib matrices over `ℚ`.
-/

namespace FL

/-! ## Composed stationary process model

Embedding of `ComposedStationaryProcessModel`
(`composed_stationary_process_model.hpp`).

A component model (`StationaryProcessModel<>` behind a `shared_ptr`) is
abstract in the source: it exposes `variableSize`, `randomsSize`,
`controlSize`, `mapFromGaussian` and `conditionals`.  `conditionals` mutates
the component's internal parameters, embedded here as explicit state passing
through a `params` field. -/

/-- A component process model: the capability set the composed model uses.
`mapFn` takes the current parameters and a randoms vector; `condFn` produces
updated parameters from `delta_time`, a state slice and a control slice. -/
structure StationaryProcessModel where
  variableSize : ℕ
  randomsSize : ℕ
  controlSize : ℕ
  params : List ℚ
  mapFn : List ℚ → List ℚ → List ℚ
  condFn : List ℚ → ℚ → List ℚ → List ℚ → List ℚ

/-- `model->mapFromGaussian(randoms)` of a component. -/
def StationaryProcessModel.mapFromGaussian
    (m : StationaryProcessModel) (randoms : List ℚ) : List ℚ :=
  m.mapFn m.params randoms

/-- `model->conditionals(delta_time, state, control)` of a component:
updates the component's internal parameters. -/
def StationaryProcessModel.conditionals (m : StationaryProcessModel)
    (delta_time : ℚ) (state control : List ℚ) : StationaryProcessModel :=
  { m with params := m.condFn m.params delta_time state control }

/-- `Eigen` `v.middleRows(start, len)`: the `len` consecutive entries of `v`
starting at row `start`. -/
def middleRows (v : List ℚ) (start len : ℕ) : List ℚ :=
  (v.drop start).take len

/-- `Eigen` block assignment `v.middleRows(start, b.length) = b`: overwrite
the rows of `v` from `start` on with `b` (the source only assigns blocks whose
size equals the assigned expression's size). -/
def writeBlock (v : List ℚ) (start : ℕ) (b : List ℚ) : List ℚ :=
  v.take start ++ b ++ v.drop (start + b.length)

/-- The composed model: an ordered list of component models
(`process_models_`). -/
structure ComposedStationaryProcessModel where
  process_models_ : List StationaryProcessModel

namespace ComposedStationaryProcessModel

/-- `total_count_state`: sum of the components' `variableSize()`. -/
def total_count_state (process_models : List StationaryProcessModel) : ℕ :=
  process_models.foldl (fun acc m => acc + m.variableSize) 0

/-- `total_count_control`: sum of the components' `controlSize()`. -/
def total_count_control (process_models : List StationaryProcessModel) : ℕ :=
  process_models.foldl (fun acc m => acc + m.controlSize) 0

/-- `total_count_randoms`: sum of the components' `randomsSize()`. -/
def total_count_randoms (process_models : List StationaryProcessModel) : ℕ :=
  process_models.foldl (fun acc m => acc + m.randomsSize) 0

/-- `ComposedStationaryProcessModel::variableSize()`. -/
def variableSize (c : ComposedStationaryProcessModel) : ℕ :=
  total_count_state c.process_models_

/-- `ComposedStationaryProcessModel::randomsSize()`. -/
def randomsSize (c : ComposedStationaryProcessModel) : ℕ :=
  total_count_randoms c.process_models_

/-- `ComposedStationaryProcessModel::controlSize()`. -/
def controlSize (c : ComposedStationaryProcessModel) : ℕ :=
  total_count_control c.process_models_

/-- The loop body of `ComposedStationaryProcessModel::mapFromGaussian`:
iterate over the component models, slicing the randoms vector at
`random_index` and writing each component's output block at
`variable_index`. -/
def mfgLoop : List StationaryProcessModel → List ℚ → List ℚ → ℕ → ℕ → List ℚ
  | [], _, vars, _, _ => vars
  | m :: rest, randoms, vars, variable_index, random_index =>
      mfgLoop rest randoms
        (writeBlock vars variable_index
          (m.mapFromGaussian (middleRows randoms random_index m.randomsSize)))
        (variable_index + m.variableSize)
        (random_index + m.randomsSize)

/-- `ComposedStationaryProcessModel::mapFromGaussian(randoms)`: allocate a
result vector of `variableSize()` rows (the source leaves it uninitialized;
zeros stand in for the indeterminate initial contents, which the loop
overwrites entirely when the component blocks are well-sized) and run the
component loop. -/
def mapFromGaussian (c : ComposedStationaryProcessModel)
    (randoms : List ℚ) : List ℚ :=
  mfgLoop c.process_models_ randoms (List.replicate c.variableSize 0) 0 0

/-- The loop body of `ComposedStationaryProcessModel::conditionals`: each
component receives its own consecutive slices of `state` and `control`. -/
def condLoop : List StationaryProcessModel → ℚ → List ℚ → List ℚ → ℕ → ℕ →
    List StationaryProcessModel
  | [], _, _, _, _, _ => []
  | m :: rest, delta_time, state, control, state_index, control_index =>
      m.conditionals delta_time
          (middleRows state state_index m.variableSize)
          (middleRows control control_index m.controlSize)
        :: condLoop rest delta_time state control
            (state_index + m.variableSize)
            (control_index + m.controlSize)

/-- `ComposedStationaryProcessModel::conditionals(delta_time, state,
control)`: update every component's parameters from its slices. -/
def conditionals (c : ComposedStationaryProcessModel)
    (delta_time : ℚ) (state control : List ℚ) : ComposedStationaryProcessModel :=
  { process_models_ := condLoop c.process_models_ delta_time state control 0 0 }

end ComposedStationaryProcessModel

/-- Reference form of the composed `mapFromGaussian`: the vertical
concatenation, in component order, of each component applied to its own
consecutive slice of the randoms vector. -/
def blocksConcat : List StationaryProcessModel → List ℚ → List ℚ
  | [], _ => []
  | m :: rest, randoms =>
      m.mapFromGaussian (randoms.take m.randomsSize)
        ++ blocksConcat rest (randoms.drop m.randomsSize)

/-! ## Lemmas about the composed model -/

open ComposedStationaryProcessModel

lemma foldl_add_start (f : StationaryProcessModel → ℕ)
    (l : List StationaryProcessModel) (n : ℕ) :
    l.foldl (fun acc m => acc + f m) n = n + (l.map f).sum := by
  induction l generalizing n with
  | nil => simp
  | cons m rest ih => simp [List.foldl_cons, ih]; ring

lemma total_count_randoms_cons (m : StationaryProcessModel)
    (rest : List StationaryProcessModel) :
    total_count_randoms (m :: rest) = m.randomsSize + total_count_randoms rest := by
  simp [total_count_randoms, foldl_add_start]

lemma total_count_state_cons (m : StationaryProcessModel)
    (rest : List StationaryProcessModel) :
    total_count_state (m :: rest) = m.variableSize + total_count_state rest := by
  simp [total_count_state, foldl_add_start]

lemma middleRows_length (randoms : List ℚ) (ri n : ℕ)
    (h : ri + n ≤ randoms.length) :
    (middleRows randoms ri n).length = n := by
  simp only [middleRows, List.length_take, List.length_drop]
  omega

lemma middleRows_take (randoms : List ℚ) (T ri n : ℕ) (h : ri + n ≤ T) :
    middleRows (randoms.take T) ri n = middleRows randoms ri n := by
  unfold middleRows
  rw [List.drop_take, List.take_take]
  congr 1
  omega

lemma writeBlock_length (v b : List ℚ) (start : ℕ)
    (h : start + b.length ≤ v.length) :
    (writeBlock v start b).length = v.length := by
  simp only [writeBlock, List.length_append, List.length_take, List.length_drop]
  omega

lemma mfgLoop_take (models : List StationaryProcessModel)
    (randoms vars : List ℚ) (vi ri T : ℕ)
    (h : ri + total_count_randoms models ≤ T) :
    mfgLoop models (randoms.take T) vars vi ri = mfgLoop models randoms vars vi ri := by
  induction models generalizing vars vi ri with
  | nil => rfl
  | cons m rest ih =>
    rw [total_count_randoms_cons] at h
    rw [mfgLoop, mfgLoop, middleRows_take randoms T ri m.randomsSize (by omega),
        ih _ _ _ (by omega)]

/-- Components are well-sized when each returns a variables vector of its
declared `variableSize()` on a randoms vector of its declared
`randomsSize()`. -/
def WellSized (models : List StationaryProcessModel) : Prop :=
  ∀ m ∈ models, ∀ r : List ℚ,
    r.length = m.randomsSize →
    (m.mapFromGaussian r).length = m.variableSize

lemma blocksConcat_length (models : List StationaryProcessModel)
    (randoms : List ℚ) (h : WellSized models)
    (hr : total_count_randoms models ≤ randoms.length) :
    (blocksConcat models randoms).length = total_count_state models := by
  induction models generalizing randoms with
  | nil => simp [blocksConcat, total_count_state]
  | cons m rest ih =>
    rw [total_count_randoms_cons] at hr
    have hslice : (randoms.take m.randomsSize).length = m.randomsSize := by
      simp only [List.length_take]
      omega
    rw [blocksConcat, List.length_append, total_count_state_cons,
        h m (List.mem_cons_self m rest) _ hslice,
        ih (randoms.drop m.randomsSize)
          (fun m2 hm => h m2 (List.mem_cons_of_mem _ hm))
          (by simp only [List.length_drop]; omega)]

lemma mfgLoop_spec (models : List StationaryProcessModel)
    (randoms vars : List ℚ) (vi ri : ℕ)
    (h : WellSized models)
    (hvars : vars.length = vi + total_count_state models)
    (hr : ri + total_count_randoms models ≤ randoms.length) :
    mfgLoop models randoms vars vi ri =
      vars.take vi ++ blocksConcat models (randoms.drop ri) := by
  induction models generalizing vars vi ri with
  | nil =>
    simp only [total_count_state, List.foldl_nil, Nat.add_zero] at hvars
    simp [mfgLoop, blocksConcat, ← hvars, List.take_length]
  | cons m rest ih =>
    rw [total_count_state_cons] at hvars
    rw [total_count_randoms_cons] at hr
    have hslice : (middleRows randoms ri m.randomsSize).length = m.randomsSize :=
      middleRows_length randoms ri m.randomsSize (by omega)
    have hb : (m.mapFromGaussian (middleRows randoms ri m.randomsSize)).length
        = m.variableSize := h m (List.mem_cons_self m rest) _ hslice
    rw [mfgLoop, ih (writeBlock vars vi
            (m.mapFromGaussian (middleRows randoms ri m.randomsSize)))
          (vi + m.variableSize) (ri + m.randomsSize)
          (fun m2 hm => h m2 (List.mem_cons_of_mem _ hm))
          (by rw [writeBlock_length vars _ vi (by omega)]; omega)
          (by omega)]
    have htake : (writeBlock vars vi
        (m.mapFromGaussian (middleRows randoms ri m.randomsSize))).take
          (vi + m.variableSize)
        = vars.take vi ++ m.mapFromGaussian (middleRows randoms ri m.randomsSize) := by
      have hlen : (vars.take vi
          ++ m.mapFromGaussian (middleRows randoms ri m.randomsSize)).length
          = vi + m.variableSize := by
        simp only [List.length_append, List.length_take, hb]
        omega
      rw [writeBlock, List.append_assoc, ← List.append_assoc, ← hlen,
          List.take_left]
    rw [htake, blocksConcat, List.append_assoc]
    have hdd : (randoms.drop ri).drop m.randomsSize
        = randoms.drop (ri + m.randomsSize) := List.drop_drop m.randomsSize ri randoms
    rw [hdd]
    rfl

/-! ## Theorems for the composed model claims -/

/-- C8: `variableSize()`, `randomsSize()` and `controlSize()` of a composed
model each equal the sum of the corresponding component sizes, in list
order. -/
theorem composed_sizes_are_component_sums (c : ComposedStationaryProcessModel) :
    c.variableSize = (c.process_models_.map StationaryProcessModel.variableSize).sum
  ∧ c.randomsSize = (c.process_models_.map StationaryProcessModel.randomsSize).sum
  ∧ c.controlSize = (c.process_models_.map StationaryProcessModel.controlSize).sum := by
  refine ⟨?_, ?_, ?_⟩ <;>
    simp [ComposedStationaryProcessModel.variableSize,
      ComposedStationaryProcessModel.randomsSize,
      ComposedStationaryProcessModel.controlSize,
      total_count_state, total_count_randoms, total_count_control,
      foldl_add_start]

/-- C9: on a well-sized randoms vector, the composed `mapFromGaussian` is the
vertical concatenation, in component order, of each component applied to its
own consecutive disjoint slice, and the result has length `variableSize()`. -/
theorem mapFromGaussian_is_blockwise (c : ComposedStationaryProcessModel)
    (randoms : List ℚ) (h : WellSized c.process_models_)
    (hr : randoms.length = c.randomsSize) :
    c.mapFromGaussian randoms = blocksConcat c.process_models_ randoms
  ∧ (c.mapFromGaussian randoms).length = c.variableSize := by
  have hspec := mfgLoop_spec c.process_models_ randoms
    (List.replicate c.variableSize 0) 0 0 h
    (by simp [ComposedStationaryProcessModel.variableSize])
    (by simp [hr, ComposedStationaryProcessModel.randomsSize])
  simp only [List.take_zero, List.drop_zero, List.nil_append] at hspec
  refine ⟨hspec, ?_⟩
  rw [ComposedStationaryProcessModel.mapFromGaussian, hspec]
  exact blocksConcat_length c.process_models_ randoms h
    (by simp [hr, ComposedStationaryProcessModel.randomsSize])

/-- A one-component test model whose component maps a randoms vector to
itself (`variableSize = randomsSize = 1`). -/
def testComponent : StationaryProcessModel :=
  { variableSize := 1
    randomsSize := 1
    controlSize := 0
    params := []
    mapFn := fun _ r => r
    condFn := fun p _ _ _ => p }

/-- A composed model holding a single `testComponent`. -/
def testComposed : ComposedStationaryProcessModel :=
  { process_models_ := [testComponent] }

/-- A composed model holding two `testComponent`s. -/
def testComposed2 : ComposedStationaryProcessModel :=
  { process_models_ := [testComponent, testComponent] }

/-- C9 witness: the blockwise decomposition, evaluated on a concrete
two-component model and randoms vector. -/
theorem mapFromGaussian_is_blockwise_witness :
    testComposed2.mapFromGaussian [5, 7]
        = blocksConcat testComposed2.process_models_ [5, 7]
    ∧ (testComposed2.mapFromGaussian [5, 7]).length = testComposed2.variableSize :=
  mapFromGaussian_is_blockwise testComposed2 [5, 7]
    (by
      intro m hm r hr
      simp only [testComposed2, testComposed, testComponent,
        List.mem_cons, List.not_mem_nil, or_false] at hm
      rcases hm with rfl | rfl <;>
        simpa [StationaryProcessModel.mapFromGaussian] using hr)
    (by rfl)

/-- C4 counterexample: a randoms vector of length 2 supplied to a composed
model with `randomsSize() = 1` is not rejected; `mapFromGaussian` silently
slices the first entry and returns the same result as on the truncated
vector. -/
theorem mapFromGaussian_mismatch_not_rejected :
    testComposed.randomsSize = 1
  ∧ ([(5 : ℚ), 7]).length = 2
  ∧ testComposed.mapFromGaussian [5, 7] = [5]
  ∧ testComposed.mapFromGaussian [5, 7] = testComposed.mapFromGaussian [5] := by
  refine ⟨rfl, rfl, rfl, rfl⟩

/-- C4 (amended): no dimension check exists at the call boundary; the
composed `mapFromGaussian` reads only the first `randomsSize()` entries of
the randoms vector, so any longer vector is silently truncated to that
prefix and mapped without error. -/
theorem mapFromGaussian_silent_truncation (c : ComposedStationaryProcessModel)
    (randoms : List ℚ) :
    c.mapFromGaussian randoms = c.mapFromGaussian (randoms.take c.randomsSize) := by
  unfold ComposedStationaryProcessModel.mapFromGaussian
  rw [mfgLoop_take c.process_models_ randoms _ 0 0 c.randomsSize
    (by simp [ComposedStationaryProcessModel.randomsSize])]

/-! ## Robust Gaussian filter

Embedding of `RobustGaussianFilter` (`robust_gaussian_filter.hpp`).  The
wrapped `GaussianFilter` engine, the `RobustFeatureObsrvModel` and the
quadrature are not among the source files; they are modelled from the
specification as abstract components (fields holding arbitrary functions),
so every theorem below holds for every instantiation of those parts. -/

/-- A Gaussian distribution value (`fl::Gaussian`): mean and covariance. -/
structure GaussianD where
  mean : List ℚ
  cov : List (List ℚ)

/-- `Gaussian(dim)`: the default Gaussian of a given dimension — zero mean
and identity covariance (`fl::Gaussian` default-initializes to standard). -/
def GaussianD.standard (n : ℕ) : GaussianD :=
  { mean := List.replicate n 0
    cov := (List.range n).map fun i =>
      (List.range n).map fun j => if i = j then (1 : ℚ) else 0 }

/-- The raw observation model capability set (`ObservationFunction`):
`observation(state, noise)` plus the declared dimensionalities. -/
structure ObservationFunction where
  obsrv_dimension : ℕ
  noise_dimension : ℕ
  observation : List ℚ → List ℚ → List ℚ

/-- Modelled from the spec: `RobustFeatureObsrvModel` (its implementation is
not among the source files).  It wraps the raw model
(`embedded_obsrv_model`), holds the body-distribution calibration state set
by `parameters(body, anchor)`, and transforms raw observations through an
abstract feature transform `featureFn` that reads the current calibration. -/
structure RobustFeatureObsrvModel where
  embedded_obsrv_model : ObservationFunction
  featureFn : GaussianD → List ℚ → List ℚ → List ℚ
  body_distr : GaussianD
  anchor : List ℚ

/-- `RobustFeatureObsrvModel::parameters(body_distr, mean)`: store the
calibration — the body distribution and the reference state. -/
def RobustFeatureObsrvModel.parameters (m : RobustFeatureObsrvModel)
    (body : GaussianD) (reference_state : List ℚ) : RobustFeatureObsrvModel :=
  { m with body_distr := body, anchor := reference_state }

/-- `RobustFeatureObsrvModel::feature_obsrv(obsrv)`: transform a raw
observation into feature space using the current calibration. -/
def RobustFeatureObsrvModel.feature_obsrv (m : RobustFeatureObsrvModel)
    (obsrv : List ℚ) : List ℚ :=
  m.featureFn m.body_distr m.anchor obsrv

/-- `FeatureObsrvModel(obsrv_model)`: the feature model constructed around a
raw model, with default (standard/empty) calibration. -/
def RobustFeatureObsrvModel.init (raw : ObservationFunction)
    (featureFn : GaussianD → List ℚ → List ℚ → List ℚ) : RobustFeatureObsrvModel :=
  { embedded_obsrv_model := raw
    featureFn := featureFn
    body_distr := GaussianD.standard raw.obsrv_dimension
    anchor := [] }

/-- The process model capability set (`StateTransitionFunction`). -/
structure StateTransitionFunction where
  state_dimension : ℕ
  noise_dimension : ℕ
  input_dimension : ℕ
  state : List ℚ → List ℚ → List ℚ → List ℚ

/-- Modelled from the spec: the sigma-point quadrature held by the inner
filter — `integrate_moments(h, belief, noise_distr)` yields the first two
moments of `h` under the belief and the noise distribution.  Abstract here;
the concrete unscented construction is analysed separately below. -/
structure Quadrature where
  integrate_moments :
    (List ℚ → List ℚ → List ℚ) → GaussianD → GaussianD → GaussianD

/-- Modelled from the spec: the inner `GaussianFilter` engine (not among the
source files).  Its prediction and update policies are abstract fields; the
update policy reads the engine's current observation model, which is the
feature model substituted by the robust wrapper. -/
structure GaussianFilter where
  process_model : StateTransitionFunction
  obsrv_model : RobustFeatureObsrvModel
  quad : Quadrature
  predictFn : GaussianD → List ℚ → GaussianD
  updateFn : RobustFeatureObsrvModel → GaussianD → List ℚ → GaussianD

/-- `GaussianFilter::predict(prior, input, predicted)`. -/
def GaussianFilter.predict (gf : GaussianFilter)
    (prior_belief : GaussianD) (input : List ℚ) : GaussianD :=
  gf.predictFn prior_belief input

/-- `GaussianFilter::update(predicted, obsrv, posterior)`: the engine's
ordinary update, using its (feature) observation model. -/
def GaussianFilter.update (gf : GaussianFilter)
    (predicted_belief : GaussianD) (obsrv : List ℚ) : GaussianD :=
  gf.updateFn gf.obsrv_model predicted_belief obsrv

/-- `RobustGaussianFilter`: holds the wrapped engine `gaussian_filter_`. -/
structure RobustGaussianFilter where
  gaussian_filter_ : GaussianFilter

namespace RobustGaussianFilter

/-- The `RobustGaussianFilter(process_model, obsrv_model, args...)`
constructor: builds the inner engine around `FeatureObsrvModel(obsrv_model)`.
The feature transform and the engine policies are the abstract
specialization arguments. -/
def construct (process_model : StateTransitionFunction)
    (obsrv_model : ObservationFunction)
    (featureFn : GaussianD → List ℚ → List ℚ → List ℚ)
    (quad : Quadrature)
    (predictFn : GaussianD → List ℚ → GaussianD)
    (updateFn : RobustFeatureObsrvModel → GaussianD → List ℚ → GaussianD) :
    RobustGaussianFilter :=
  { gaussian_filter_ :=
      { process_model := process_model
        obsrv_model := RobustFeatureObsrvModel.init obsrv_model featureFn
        quad := quad
        predictFn := predictFn
        updateFn := updateFn } }

/-- `RobustGaussianFilter::obsrv_model()`: the raw model embedded inside the
engine's feature model. -/
def obsrv_model (f : RobustGaussianFilter) : ObservationFunction :=
  f.gaussian_filter_.obsrv_model.embedded_obsrv_model

/-- `RobustGaussianFilter::robust_feature_obsrv_model()`: the engine's
feature observation model. -/
def robust_feature_obsrv_model (f : RobustGaussianFilter) :
    RobustFeatureObsrvModel :=
  f.gaussian_filter_.obsrv_model

/-- `RobustGaussianFilter::predict(prior, input, predicted)`. -/
def predict (f : RobustGaussianFilter)
    (prior_belief : GaussianD) (input : List ℚ) : GaussianD :=
  f.gaussian_filter_.predict prior_belief input

/-- `RobustGaussianFilter::update(predicted, obsrv, posterior)`: integrate
the raw observation function's moments under the predicted belief and the
noise distribution, calibrate the feature model with the resulting body
distribution and the predicted mean, transform the raw observation, and
delegate to the engine's update.  The calibration mutates the engine's
feature model; the updated filter is returned alongside the posterior. -/
def update (f : RobustGaussianFilter)
    (predicted_belief : GaussianD) (obsrv : List ℚ) :
    GaussianD × RobustGaussianFilter :=
  let noise_distr := GaussianD.standard f.obsrv_model.noise_dimension
  let h := fun x w => f.obsrv_model.observation x w
  let body_distr :=
    f.gaussian_filter_.quad.integrate_moments h predicted_belief noise_distr
  let gf1 : GaussianFilter :=
    { f.gaussian_filter_ with
        obsrv_model :=
          f.gaussian_filter_.obsrv_model.parameters body_distr
            predicted_belief.mean }
  let posterior :=
    gf1.update predicted_belief (gf1.obsrv_model.feature_obsrv obsrv)
  (posterior, { gaussian_filter_ := gf1 })

end RobustGaussianFilter

/-! ## Theorems for the robust filter claims -/

/-- C1: per `update` call, and before the engine's update is invoked, the
wrapper (1) quadrature-integrates the raw observation function's moments
under the predicted belief and its noise distribution into the body
distribution, (2) passes the body distribution to the feature model's
calibration, (3) transforms the raw observation with the calibrated feature
model, and (4) delegates to the engine's ordinary update with the feature
observation, whose result is the posterior belief. -/
theorem rgf_update_pipeline (f : RobustGaussianFilter)
    (predicted_belief : GaussianD) (obsrv : List ℚ) :
    (f.update predicted_belief obsrv).1
      = f.gaussian_filter_.updateFn
          (f.gaussian_filter_.obsrv_model.parameters
            (f.gaussian_filter_.quad.integrate_moments
              (fun x w => (f.obsrv_model).observation x w)
              predicted_belief
              (GaussianD.standard (f.obsrv_model).noise_dimension))
            predicted_belief.mean)
          predicted_belief
          ((f.gaussian_filter_.obsrv_model.parameters
            (f.gaussian_filter_.quad.integrate_moments
              (fun x w => (f.obsrv_model).observation x w)
              predicted_belief
              (GaussianD.standard (f.obsrv_model).noise_dimension))
            predicted_belief.mean).feature_obsrv obsrv)
  ∧ (f.update predicted_belief obsrv).2.gaussian_filter_.obsrv_model
      = f.gaussian_filter_.obsrv_model.parameters
          (f.gaussian_filter_.quad.integrate_moments
            (fun x w => (f.obsrv_model).observation x w)
            predicted_belief
            (GaussianD.standard (f.obsrv_model).noise_dimension))
          predicted_belief.mean :=
  ⟨rfl, rfl⟩

/-- C3: `RobustGaussianFilter::predict` returns exactly the wrapped
(feature-model-substituted) engine's prediction on the same arguments;
the wrapper adds nothing to prediction. -/
theorem rgf_predict_transparent (f : RobustGaussianFilter)
    (prior_belief : GaussianD) (input : List ℚ) :
    f.predict prior_belief input
      = f.gaussian_filter_.predict prior_belief input :=
  rfl

/-- C5: `predict` and `update` are deterministic pure functions of the
filter (its models and parameters), the input belief and the
input/observation: equal inputs give equal outputs. -/
theorem rgf_deterministic (f₁ f₂ : RobustGaussianFilter)
    (b₁ b₂ : GaussianD) (u₁ u₂ o₁ o₂ : List ℚ)
    (hf : f₁ = f₂) (hb : b₁ = b₂) (hu : u₁ = u₂) (ho : o₁ = o₂) :
    f₁.predict b₁ u₁ = f₂.predict b₂ u₂
  ∧ f₁.update b₁ o₁ = f₂.update b₂ o₂ := by
  subst hf; subst hb; subst hu; subst ho
  exact ⟨rfl, rfl⟩

/-- A concrete robust filter instance used to witness hypotheses. -/
def testRGF : RobustGaussianFilter :=
  RobustGaussianFilter.construct
    { state_dimension := 1, noise_dimension := 1, input_dimension := 1
      state := fun s _ _ => s }
    { obsrv_dimension := 1, noise_dimension := 1
      observation := fun s _ => s }
    (fun _ _ o => o)
    { integrate_moments := fun _ b _ => b }
    (fun b _ => b)
    (fun _ b _ => b)

/-- C5 witness: determinism applied at a concrete filter, belief, input and
observation. -/
theorem rgf_deterministic_witness :
    testRGF.predict (GaussianD.standard 1) [0]
        = testRGF.predict (GaussianD.standard 1) [0]
    ∧ testRGF.update (GaussianD.standard 1) [3]
        = testRGF.update (GaussianD.standard 1) [3] :=
  rgf_deterministic testRGF testRGF (GaussianD.standard 1) (GaussianD.standard 1)
    [0] [0] [3] [3] rfl rfl rfl rfl

/-- C7: `obsrv_model()` returns the raw model embedded inside the feature
model, and `robust_feature_obsrv_model()` returns the wrapping feature model
that the inner engine actually uses. -/
theorem rgf_accessors (process_model : StateTransitionFunction)
    (raw : ObservationFunction)
    (featureFn : GaussianD → List ℚ → List ℚ → List ℚ)
    (quad : Quadrature)
    (predictFn : GaussianD → List ℚ → GaussianD)
    (updateFn : RobustFeatureObsrvModel → GaussianD → List ℚ → GaussianD) :
    (RobustGaussianFilter.construct process_model raw featureFn quad
        predictFn updateFn).obsrv_model = raw
  ∧ (RobustGaussianFilter.construct process_model raw featureFn quad
        predictFn updateFn).robust_feature_obsrv_model
      = RobustFeatureObsrvModel.init raw featureFn
  ∧ (RobustGaussianFilter.construct process_model raw featureFn quad
        predictFn updateFn).robust_feature_obsrv_model
      = (RobustGaussianFilter.construct process_model raw featureFn quad
          predictFn updateFn).gaussian_filter_.obsrv_model
  ∧ (RobustGaussianFilter.construct process_model raw featureFn quad
        predictFn updateFn).robust_feature_obsrv_model.embedded_obsrv_model
      = raw :=
  ⟨rfl, rfl, rfl, rfl⟩

/-- C10: in every `update` call the calibration hook `parameters` receives
the predicted belief's mean as its reference-state argument, and the feature
transform of the incoming observation is evaluated on the already-calibrated
model (body distribution and predicted mean), i.e. calibration precedes the
transform. -/
theorem rgf_calibration_uses_predicted_mean (f : RobustGaussianFilter)
    (predicted_belief : GaussianD) (obsrv : List ℚ) :
    (f.update predicted_belief obsrv).2.gaussian_filter_.obsrv_model.anchor
      = predicted_belief.mean
  ∧ (f.update predicted_belief obsrv).1
      = f.gaussian_filter_.updateFn
          (f.update predicted_belief obsrv).2.gaussian_filter_.obsrv_model
          predicted_belief
          ((f.update predicted_belief obsrv).2.gaussian_filter_.obsrv_model.featureFn
            (f.update predicted_belief obsrv).2.gaussian_filter_.obsrv_model.body_distr
            predicted_belief.mean
            obsrv) :=
  ⟨rfl, rfl⟩

/-! ## Unscented sigma-point quadrature

The quadrature implementation is not among the source files; the standard
unscented construction is modelled from the specification: 2n+1 points — a
central point at the mean and symmetric points offset by the columns of the
matrix square root of the scaled covariance — with central weight λ/(n+λ)
and symmetric weights 1/(2(n+λ)). -/

/-- Modelled from the spec: the central sigma-point weight λ/(n+λ). -/
def utWeightCenter (n : ℕ) (lam : ℚ) : ℚ := lam / ((n : ℚ) + lam)

/-- Modelled from the spec: the symmetric sigma-point weight 1/(2(n+λ)). -/
def utWeightSym (n : ℕ) (lam : ℚ) : ℚ := 1 / (2 * ((n : ℚ) + lam))

/-- Column `i` of the matrix square root: the offset of the `i`-th symmetric
sigma-point pair from the mean. -/
def utCol {n : ℕ} (L : Matrix (Fin n) (Fin n) ℚ) (i : Fin n) : Fin n → ℚ :=
  fun j => L j i

/-- Modelled from the spec: the quadrature mean — the weighted sum of `g`
over the 2n+1 sigma points `μ, μ ± Lᵢ`. -/
def utMean {n : ℕ} (g : (Fin n → ℚ) → (Fin n → ℚ)) (mu : Fin n → ℚ)
    (L : Matrix (Fin n) (Fin n) ℚ) (lam : ℚ) : Fin n → ℚ :=
  utWeightCenter n lam • g mu
    + ∑ i : Fin n,
        utWeightSym n lam • (g (mu + utCol L i) + g (mu - utCol L i))

/-- Modelled from the spec: the quadrature covariance — the weighted sum of
outer products of the sigma-point images' deviations from the quadrature
mean. -/
def utCov {n : ℕ} (g : (Fin n → ℚ) → (Fin n → ℚ)) (mu : Fin n → ℚ)
    (L : Matrix (Fin n) (Fin n) ℚ) (lam : ℚ) : Matrix (Fin n) (Fin n) ℚ :=
  utWeightCenter n lam •
      Matrix.vecMulVec (g mu - utMean g mu L lam) (g mu - utMean g mu L lam)
    + ∑ i : Fin n,
        utWeightSym n lam •
          (Matrix.vecMulVec (g (mu + utCol L i) - utMean g mu L lam)
              (g (mu + utCol L i) - utMean g mu L lam)
            + Matrix.vecMulVec (g (mu - utCol L i) - utMean g mu L lam)
              (g (mu - utCol L i) - utMean g mu L lam))

lemma mulVec_utCol {n : ℕ} (A L : Matrix (Fin n) (Fin n) ℚ)
    (i j : Fin n) : A.mulVec (utCol L i) j = (A * L) j i := by
  simp [Matrix.mulVec, Matrix.mul_apply, utCol, Matrix.dotProduct]

lemma utMean_affine {n : ℕ} (lam : ℚ) (hlam : (n : ℚ) + lam ≠ 0)
    (A : Matrix (Fin n) (Fin n) ℚ) (b mu : Fin n → ℚ)
    (L : Matrix (Fin n) (Fin n) ℚ) :
    utMean (fun x => A.mulVec x + b) mu L lam = A.mulVec mu + b := by
  funext j
  simp only [utMean, Pi.add_apply, Pi.smul_apply, Finset.sum_apply, smul_eq_mul]
  have hconst : ∀ i ∈ Finset.univ,
      utWeightSym n lam *
        ((A.mulVec (mu + utCol L i) j + b j)
          + (A.mulVec (mu - utCol L i) j + b j))
      = utWeightSym n lam * (2 * (A.mulVec mu j + b j)) := by
    intro i _
    rw [Matrix.mulVec_add, Matrix.mulVec_sub]
    simp only [Pi.add_apply, Pi.sub_apply]
    ring
  rw [Finset.sum_congr rfl hconst, Finset.sum_const, Finset.card_univ,
      Fintype.card_fin, nsmul_eq_mul]
  field_simp [utWeightCenter, utWeightSym]
  ring

lemma utCov_affine {n : ℕ} (lam : ℚ) (hlam : (n : ℚ) + lam ≠ 0)
    (A : Matrix (Fin n) (Fin n) ℚ) (b mu : Fin n → ℚ)
    (L : Matrix (Fin n) (Fin n) ℚ) :
    utCov (fun x => A.mulVec x + b) mu L lam
      = (2 * utWeightSym n lam) • (A * (L * L.transpose) * A.transpose) := by
  have hALAL : A * (L * L.transpose) * A.transpose
      = (A * L) * (A * L).transpose := by
    rw [Matrix.transpose_mul, Matrix.mul_assoc, Matrix.mul_assoc,
        Matrix.mul_assoc]
  rw [hALAL]
  unfold utCov
  rw [utMean_affine lam hlam A b mu L]
  ext j k
  simp only [Matrix.add_apply, Matrix.smul_apply, Matrix.vecMulVec_apply,
    Matrix.sum_apply, Finset.sum_apply, Pi.sub_apply, Pi.add_apply,
    smul_eq_mul, Matrix.mul_apply, Matrix.transpose_apply]
  have hplus : ∀ (i : Fin n) (p : Fin n),
      A.mulVec (mu + utCol L i) p + b p - (A.mulVec mu p + b p)
        = (A * L) p i := by
    intro i p
    rw [Matrix.mulVec_add]
    simp only [Pi.add_apply, ← mulVec_utCol A L i p]
    ring
  have hminus : ∀ (i : Fin n) (p : Fin n),
      A.mulVec (mu - utCol L i) p + b p - (A.mulVec mu p + b p)
        = -((A * L) p i) := by
    intro i p
    rw [Matrix.mulVec_sub]
    simp only [Pi.sub_apply, ← mulVec_utCol A L i p]
    ring
  have hcenter : ∀ p : Fin n,
      A.mulVec mu p + b p - (A.mulVec mu p + b p) = 0 := fun p => by ring
  simp only [hplus, hminus, hcenter, mul_zero, zero_mul, add_zero, zero_add,
    neg_mul_neg]
  rw [Finset.mul_sum]
  refine Finset.sum_congr rfl fun i _ => ?_
  simp only [← Matrix.mul_apply]
  ring

/-- C6: sigma-point quadrature moment integration applied to the identity —
and more generally to any affine function — of a Gaussian reproduces the
exact first two output moments (identity reproduces the input mean and
covariance), for every covariance with a matrix square root of the scaled
covariance and every state dimension ≥ 1. -/
theorem ut_moment_matching (n : ℕ) (lam : ℚ) (mu : Fin n → ℚ)
    (L Sigma : Matrix (Fin n) (Fin n) ℚ)
    (hn : 1 ≤ n) (hlam : (n : ℚ) + lam ≠ 0)
    (hL : L * L.transpose = ((n : ℚ) + lam) • Sigma) :
    (utMean (fun x => x) mu L lam = mu
      ∧ utCov (fun x => x) mu L lam = Sigma)
  ∧ ∀ (A : Matrix (Fin n) (Fin n) ℚ) (b : Fin n → ℚ),
      utMean (fun x => A.mulVec x + b) mu L lam = A.mulVec mu + b
    ∧ utCov (fun x => A.mulVec x + b) mu L lam
        = A * Sigma * A.transpose := by
  have haffcov : ∀ (A : Matrix (Fin n) (Fin n) ℚ) (b : Fin n → ℚ),
      utCov (fun x => A.mulVec x + b) mu L lam = A * Sigma * A.transpose := by
    intro A b
    rw [utCov_affine lam hlam A b mu L, hL, Matrix.mul_smul, Matrix.smul_mul,
        smul_smul]
    have hone : 2 * utWeightSym n lam * ((n : ℚ) + lam) = 1 := by
      field_simp [utWeightSym]
    rw [hone, one_smul]
  have hid : (fun x : Fin n → ℚ => x)
      = fun x => (1 : Matrix (Fin n) (Fin n) ℚ).mulVec x + 0 := by
    funext x
    simp [Matrix.one_mulVec]
  refine ⟨⟨?_, ?_⟩, fun A b => ⟨utMean_affine lam hlam A b mu L, haffcov A b⟩⟩
  · rw [hid, utMean_affine lam hlam 1 0 mu L]
    simp [Matrix.one_mulVec]
  · rw [hid, haffcov 1 0]
    simp [Matrix.transpose_one, Matrix.one_mul, Matrix.mul_one]

/-- Concrete mean for the quadrature witness. -/
def wMu : Fin 1 → ℚ := fun _ => 3

/-- Concrete covariance for the quadrature witness. -/
def wSigma : Matrix (Fin 1) (Fin 1) ℚ := Matrix.of fun _ _ => 2

/-- Concrete square root of the scaled covariance for the quadrature
witness: `wL * wLᵀ = (1 + 1) • wSigma`. -/
def wL : Matrix (Fin 1) (Fin 1) ℚ := Matrix.of fun _ _ => 2

/-- C6 witness: moment matching for the identity at a concrete
one-dimensional Gaussian. -/
theorem ut_moment_matching_witness :
    utMean (fun x => x) wMu wL 1 = wMu
  ∧ utCov (fun x => x) wMu wL 1 = wSigma :=
  (ut_moment_matching 1 1 wMu wL wSigma (Nat.le_refl 1) (by norm_num)
    (by
      ext i j
      simp [wL, wSigma, Matrix.mul_apply, Fin.sum_univ_one]
      norm_num)).1

end FL
